import Mathlib

/-!
# Shallow embedding of `nxutils` (graph plotting / tree-display helpers)

This file embeds the functions of `src/nxutils/nxutils.py` in Lean 4 and
proves or refutes the specification claims about them.

Modelling conventions:
* 2D coordinates are exact rationals (`Pt := ℚ × ℚ`); the numpy float
  arrays are idealised as exact arithmetic.
* A row of a numpy coordinate array that may contain the `NaN` sentinel is
  `Row := Option Pt`; `none` is the sentinel break row `(nan, nan)` and
  `some p` is a finite row.  Numpy's NaN propagation through arithmetic is
  mirrored by `rowMap2` (any operation touching the sentinel yields the
  sentinel).
* Python dictionaries become insertion-ordered association lists; the
  duplicate-key semantics of `dict(...)` (first occurrence keeps its
  position, assignment replaces the value) is `pyDictInsert`.
* A lookup `pos[node]` that can raise `KeyError` becomes an
  `Option`-valued lookup, and fallible functions return `Option`/`Except`.
-/

namespace NxUtils

/-- A 2D point, the entries of a numpy coordinate row. -/
abbrev Pt : Type := ℚ × ℚ

/-- A row of a coordinate array: `none` is the NaN sentinel break row,
`some p` a finite row. -/
abbrev Row : Type := Option Pt

/-- Numpy elementwise binary arithmetic on rows: NaN rows propagate. -/
def rowMap2 (f : Pt → Pt → Pt) : Row → Row → Row
  | some a, some b => some (f a b)
  | _, _ => none

/-- Python `dict` assignment `d[k] = v` on an insertion-ordered
association list: if the key is present its value is replaced in place,
otherwise the pair is appended. -/
def pyDictInsert {κ ν : Type} [DecidableEq κ] (k : κ) (v : ν)
    (d : List (κ × ν)) : List (κ × ν) :=
  if k ∈ d.map Prod.fst then
    d.map (fun kv => if kv.1 = k then (k, v) else kv)
  else
    d ++ [(k, v)]

/-- `edge_pos(edges, pos)` (nxutils.py lines 20-23): build the dict
`{edge: (pos[edge[0]], pos[edge[1]])}` over the edge iterable.  The list
comprehension evaluates `pos[edge[0]]` then `pos[edge[1]]` for each edge
in order (a missing key raises, modelled by `none`), and `dict(...)`
folds the pairs with Python dict assignment semantics. -/
def edge_posAux {α : Type} [DecidableEq α] (pos : α → Option Pt) :
    List (α × α) → List ((α × α) × (Pt × Pt)) → Option (List ((α × α) × (Pt × Pt)))
  | [], d => some d
  | e :: rest, d =>
    match pos e.1, pos e.2 with
    | some ps, some pe => edge_posAux pos rest (pyDictInsert e (ps, pe) d)
    | _, _ => none

/-- `edge_pos(edges, pos)`: see `edge_posAux`. -/
def edge_pos {α : Type} [DecidableEq α] (edges : List (α × α))
    (pos : α → Option Pt) : Option (List ((α × α) × (Pt × Pt))) :=
  edge_posAux pos edges []

/-- `edge_pos_to_array(edge_pos)` (lines 26-34): for each edge of the
dict, in order, append the start then the end position. -/
def edge_pos_to_array {α : Type} (ep : List ((α × α) × (Pt × Pt))) : List Pt :=
  ep.flatMap (fun kv => [kv.2.1, kv.2.2])

/-- Membership test for `range(2, n - 1, 2)`, the insertion positions of
`np.insert(edge_arr, slice(2, -1, 2), ...)` on an array of `n` rows
(`slice(2, -1, 2)` resolves to start 2, stop `n - 1`, step 2). -/
def sepPos (n j : ℕ) : Bool :=
  decide (2 ≤ j ∧ j < n - 1 ∧ j % 2 = 0)

/-- Walk the array emitting a sentinel row before every original index
selected by `P`; this is `np.insert` with a NaN row at each selected
position. -/
def sepGo (P : ℕ → Bool) : ℕ → List Pt → List Row
  | _, [] => []
  | j, p :: rest =>
    (if P j then [none, some p] else [some p]) ++ sepGo P (j + 1) rest

/-- The row insertion of `separate_edges`: a NaN break row before
original row index `j` for each `j` in `range(2, len(arr) - 1, 2)` (the
positions `slice(2, -1, 2)` resolves to). -/
def sepRows (arr : List Pt) : List Row :=
  sepGo (sepPos arr.length) 0 arr

/-- `separate_edges(edge_arr)` (lines 37-42):
`np.insert(edge_arr, slice(2, -1, 2), np.full(2, np.nan), axis=0)`.

For a graph with at least one edge, `edge_arr` is a `(2E, 2)` array and
the result is `sepRows`.  For zero edges, however, `edge_pos_to_array`
produced the one-dimensional `np.array([])`, and `np.insert`'s general
path executes `new[indices] = values` with an empty index selection of
shape `(0,)` and the 2-element NaN row as value — a shape mismatch that
raises `ValueError` (a 2-element array cannot broadcast into an indexing
result of shape `(0,)`).  `none` models that raise. -/
def separate_edges (arr : List Pt) : Option (List Row) :=
  if arr = [] then none else some (sepRows arr)

/-- Numpy strided slice `l[0::3]`: the head, then every third element. -/
def sliceStep3 : List Row → List Row
  | [] => []
  | [a] => [a]
  | [a, _] => [a]
  | a :: _ :: _ :: rest => a :: sliceStep3 rest

/-- `np.arctan2 y x`: the two-argument arctangent, first argument the
"vertical" coordinate, second the "horizontal" one, following the C
`atan2` convention numpy implements (`arctan2 0 0 = 0`; signed zeros do
not exist in `ℝ`). -/
noncomputable def arctan2 (y x : ℝ) : ℝ :=
  if 0 < x then Real.arctan (y / x)
  else if x < 0 then
    (if 0 ≤ y then Real.arctan (y / x) + Real.pi
     else Real.arctan (y / x) - Real.pi)
  else
    (if 0 < y then Real.pi / 2
     else if y < 0 then -(Real.pi / 2)
     else 0)

/-- `edge_sep_to_mid_data(g, edge_sep)` (lines 45-50; the graph argument
is unused in the source and omitted here):
`mid_pos = edge_sep[0::3]/2 + edge_sep[1::3]/2`,
`mid_vector = edge_sep[1::3] - edge_sep[0::3]`,
`mid_angle = np.arctan2(mid_vector[:, 0], mid_vector[:, 1]) * (180/np.pi)`
— note column 0 (the x component) is passed as the *first* `arctan2`
argument and column 1 (the y component) as the second.  The row list
models a two-dimensional `(n, 2)` array (the only shape this function
receives in the pipeline, since `separate_edges` fails on the empty
one-dimensional array before this stage can be reached). -/
noncomputable def edge_sep_to_mid_data (edge_sep : List Row) :
    List Row × List (Option ℝ) :=
  let s0 := sliceStep3 edge_sep
  let s1 := sliceStep3 (edge_sep.drop 1)
  let mid_pos := List.zipWith
    (rowMap2 (fun a b => (a.1 / 2 + b.1 / 2, a.2 / 2 + b.2 / 2))) s0 s1
  let mid_vector := List.zipWith
    (rowMap2 (fun b a => (b.1 - a.1, b.2 - a.2))) s1 s0
  (mid_pos,
   mid_vector.map (Option.map
     (fun d => arctan2 (d.1 : ℝ) (d.2 : ℝ) * (180 / Real.pi))))

/-- Identity of a layout function object.  The layout algorithms
themselves (`nx.planar_layout`, `nx.spring_layout`, a caller-supplied or
graph-attached function) are external collaborators; what the source
selects between is *which* function object to call, so the embedding
tracks that identity and takes an interpretation environment mapping each
identity to the node-position dict it would return. -/
inductive LayoutFn where
  | supplied
  | attached
  | planar
  | spring
deriving DecidableEq

/-- The graph, as the union of the `networkx` features the source uses:
node iteration order (`g.nodes` / `for node in g`), the successor
adjacency dicts (`g.adj`), edge iteration (`g.edges`), `g.is_directed()`,
the external planarity test `nx.is_planar(g)` (recorded as a flag), the
optional `g.name` and optional attached `g.layout_func` attributes, and
per-node attribute data (`g.nodes[n]`). -/
structure Graph (α : Type) where
  nodes : List α
  adj : α → List α
  edges : List (α × α)
  directed : Bool
  planar : Bool
  name : Option String
  layout_func : Option LayoutFn
  nodeData : α → List (String × String)

/-- Positions returned by a layout function: the insertion-ordered dict
`node ↦ (x, y)`. -/
abbrev PosDict (α : Type) := List (α × Pt)

/-- Dict lookup `pos[a]`, `none` for a `KeyError`. -/
def posLookup {α : Type} [DecidableEq α] (pos : PosDict α) : α → Option Pt :=
  fun a => (pos.find? (fun kv => kv.1 = a)).map (·.2)

/-- The layout-selection block of `g_to_edge_array` (lines 55-59): use
the supplied `layout_func` if not `None`, else `g.layout_func` if the
attribute exists, else `nx.planar_layout` — with no planarity test. -/
def edge_array_layout_choice (layout_func g_layout : Option LayoutFn) : LayoutFn :=
  match layout_func with
  | some f => f
  | none =>
    match g_layout with
    | some f => f
    | none => LayoutFn.planar

/-- The layout-selection block of `g_to_plot_arrays` (lines 65-72): as
in `g_to_edge_array`, except that the final fallback tests
`nx.is_planar(g)` and picks `nx.planar_layout` or `nx.spring_layout`. -/
def plot_arrays_layout_choice (layout_func g_layout : Option LayoutFn)
    (is_planar : Bool) : LayoutFn :=
  match layout_func with
  | some f => f
  | none =>
    match g_layout with
    | some f => f
    | none => if is_planar then LayoutFn.planar else LayoutFn.spring

/-- `g_to_edge_array(g, layout_func=None)` (lines 53-61): select the
layout function, call it, and return
`edge_pos_to_array(edge_pos(g.edges(), layout_func(g)))`. -/
def g_to_edge_array {α : Type} [DecidableEq α] (g : Graph α)
    (interp : LayoutFn → PosDict α) (layout_func : Option LayoutFn) :
    Option (List Pt) :=
  let pos := interp (edge_array_layout_choice layout_func g.layout_func)
  (edge_pos g.edges (posLookup pos)).map edge_pos_to_array

/-- `g_to_plot_arrays(g, layout_func=None)` (lines 64-82): select the
layout, compute `pos`, build the separated edge array, and, when the
graph is directed, the midpoint data (`None` otherwise).  Returns
`(np.array(list(pos.values())), edge_sep, mid_data)`; the outer `none`
models a raise: the `KeyError` when an edge endpoint is missing from
`pos`, or the `ValueError` of `separate_edges` on a zero-edge graph. -/
noncomputable def g_to_plot_arrays {α : Type} [DecidableEq α] (g : Graph α)
    (interp : LayoutFn → PosDict α) (layout_func : Option LayoutFn) :
    Option (List Pt × List Row × Option (List Row × List (Option ℝ))) :=
  let pos := interp (plot_arrays_layout_choice layout_func g.layout_func g.planar)
  (edge_pos g.edges (posLookup pos)).bind (fun ep =>
    (separate_edges (edge_pos_to_array ep)).map (fun edge_sep =>
      let mid_data :=
        if g.directed then some (edge_sep_to_mid_data edge_sep) else none
      (pos.map (·.2), edge_sep, mid_data)))

/-- A `rich.Tree`: a label and the ordered children.  `tree.add(label)`
with a string argument creates a childless child node with that label;
`tree.add(subtree)` appends the subtree. -/
inductive RTree where
  | node (label : String) (children : List RTree)
deriving Inhabited

/-- The label of the root of a tree. -/
def RTree.label : RTree → String
  | .node l _ => l

/-- The children of the root of a tree. -/
def RTree.children : RTree → List RTree
  | .node _ cs => cs

mutual

/-- Number of nodes of the tree carrying the given label. -/
def countLabel (s : String) : RTree → ℕ
  | .node l cs => (if l = s then 1 else 0) + countLabelList s cs

/-- `countLabel` summed over a list of trees. -/
def countLabelList (s : String) : List RTree → ℕ
  | [] => 0
  | t :: ts => countLabel s t + countLabelList s ts

end

mutual

/-- Total number of labeled nodes of the tree. -/
def countNodes : RTree → ℕ
  | .node _ cs => 1 + countNodesList cs

/-- `countNodes` summed over a list of trees. -/
def countNodesList : List RTree → ℕ
  | [] => 0
  | t :: ts => countNodes t + countNodesList ts

end

/-- The predecessors of a node, `g.pred[m]`: the nodes (in node-iteration
order) whose successor dict contains `m`. -/
def predList {α : Type} [DecidableEq α] (g : Graph α) (m : α) : List α :=
  g.nodes.filter (fun u => m ∈ g.adj u)

/-- The default `label_func` of `diGraph_to_richTree` (lines 232-234):
convert the node to a string. -/
def default_label_func {α : Type} [ToString α] (_g : Graph α) (n : α) : String :=
  toString n

/-- `diGraph_to_richTree(g, n=None, label_func=None, root_label=None)`
(lines 215-255).  `root_label` defaults to `g.name` when that attribute
exists, else to `"Root"`.  With `n = None` the neighbour list is the
in-degree-zero nodes and the tree root is labelled `root_label`;
otherwise the neighbours are `g.adj[n]` and the root is labelled
`label_func(g, n)`.  For each neighbour with successors the function
recurses (passing `label_func` but leaving `root_label` to its default),
otherwise a plain leaf label is added.  The source recursion carries no
visited set and no termination guard; the embedding supplies an explicit
recursion budget `fuel`, and `none` means the budget was exhausted —
i.e. the source recursion reached that depth without returning. -/
def diGraph_to_richTree {α : Type} [DecidableEq α] (g : Graph α) :
    ℕ → Option α → (Graph α → α → String) → Option String → Option RTree
  | 0, _, _, _ => none
  | fuel + 1, n, label_func, root_label =>
    let rl := root_label.getD (g.name.getD "Root")
    let nbrs := match n with
      | none => g.nodes.filter (fun m => (predList g m).length = 0)
      | some v => g.adj v
    let label := match n with
      | none => rl
      | some v => label_func g v
    (nbrs.mapM (fun nb =>
      if 0 < (g.adj nb).length then
        diGraph_to_richTree g fuel (some nb) label_func none
      else
        some (RTree.node (label_func g nb) []))).map
      (fun children => RTree.node label children)

/-! ## `g_to_traces` and the trace-configuration dictionaries

Python dictionaries are heap objects: `kw.update(trace_kwargs)` copies
*references* to the caller's nested per-trace dicts into `kw`, so a later
in-place update through `kw` is visible through the caller's reference.
To state claims about such sharing, the nested configuration dicts live
on an explicit heap of numbered addresses, and a dict value can be a
string, a number, a reference to another dict, or a numeric array. -/

/-- A value stored in a trace-configuration dict. -/
inductive CVal where
  | s (v : String)
  | n (v : ℚ)
  | ref (a : ℕ)
  | rArr (v : List (Option ℝ))

/-- An insertion-ordered Python dict with string keys. -/
abbrev CDict : Type := List (String × CVal)

/-- The heap: address ↦ dict. -/
abbrev Heap : Type := List (ℕ × CDict)

/-- The keys of a dict, in insertion order. -/
def dictKeys (d : CDict) : List String := d.map Prod.fst

/-- Dict subscript `d[k]`, `none` for `KeyError`. -/
def dictGet (d : CDict) (k : String) : Option CVal :=
  (d.find? (fun kv => kv.1 = k)).map (·.2)

/-- Dict assignment `d[k] = v` (replace in place, else append). -/
def dictSet (d : CDict) (k : String) (v : CVal) : CDict :=
  if k ∈ dictKeys d then
    d.map (fun kv => if kv.1 = k then (k, v) else kv)
  else
    d ++ [(k, v)]

/-- `d.update(other)`: assign each entry of `other`, in order, into `d`. -/
def dictUpdate (d other : CDict) : CDict :=
  other.foldl (fun acc kv => dictSet acc kv.1 kv.2) d

/-- `del d[k]`. -/
def dictDel (d : CDict) (k : String) : CDict :=
  d.filter (fun kv => ¬ kv.1 = k)

/-- Heap read: the dict at an address. -/
def heapGet (h : Heap) (a : ℕ) : Option CDict :=
  (h.find? (fun ad => ad.1 = a)).map (·.2)

/-- Heap write: replace the dict at an address (allocate if absent). -/
def heapSet (h : Heap) (a : ℕ) (d : CDict) : Heap :=
  if a ∈ h.map Prod.fst then
    h.map (fun ad => if ad.1 = a then (a, d) else ad)
  else
    h ++ [(a, d)]

/-- A fresh heap address. -/
def freshAddr (h : Heap) : ℕ :=
  (h.map Prod.fst).foldl max 0 + 1

/-- A built plotly trace, reduced to what the source hands to the
plotting backend from the geometry: the trace name and its x and y
coordinate columns (the style kwargs go to the external backend). -/
structure PTrace where
  name : String
  x : List (Option ℚ)
  y : List (Option ℚ)

/-- The x (first) coordinate column of an array of rows; a sentinel row
yields NaN. -/
def colX (rows : List Row) : List (Option ℚ) := rows.map (Option.map (·.1))

/-- The y (second) coordinate column of an array of rows. -/
def colY (rows : List Row) : List (Option ℚ) := rows.map (Option.map (·.2))

/-- The error message of lines 104-105. -/
def arrowsErrMsg : String :=
  "Cannot plot directed arrows if g is undirected. Remove arrows from trace_kwargs."

/-- `g_to_traces(g, trace_kwargs={}, layout_func=None)` (lines 85-138).

The caller's `trace_kwargs` is passed as a dict value whose nested
per-trace configurations are heap references (the source never mutates
the caller's top-level dict object: it only tests membership, reads
subscripts and uses it as an `update` source; rebinding the local name
`trace_kwargs = kw` does not touch the caller's object).

Steps, in source order:
1. build `trace_defaults`, allocating its four nested dicts on the heap;
2. if `"arrows" in trace_kwargs and not g.is_directed()`: raise
   `TypeError` (before the merge and before any layout or geometry);
3. `kw = trace_defaults`; if undirected `del kw["arrows"]`;
   `kw.update(trace_kwargs)` — copying the caller's nested references;
4. `g_to_plot_arrays` (a missing position propagates as an error);
5. build the `nodes` / `edges` traces when their keys are present;
6. when `"arrows"` is present: unpack `mid_data` (a `TypeError` if it is
   `None`), and if the arrows marker dict has no `"angle"` key, update
   that dict *in place* on the heap with the angle array; then build the
   arrows trace.

Returns the final heap together with the traces dict. -/
noncomputable def g_to_traces {α : Type} [DecidableEq α] (g : Graph α)
    (interp : LayoutFn → PosDict α) (trace_kwargs : CDict)
    (layout_func : Option LayoutFn) (h0 : Heap) :
    Except String (Heap × List (String × PTrace)) :=
  let mAddr := freshAddr h0
  let h1 := heapSet h0 mAddr
    [("size", .n 12), ("symbol", .s "arrow-wide"), ("color", .s "green")]
  let nAddr := freshAddr h1
  let h2 := heapSet h1 nAddr [("name", .s "nodes"), ("mode", .s "markers")]
  let eAddr := freshAddr h2
  let h3 := heapSet h2 eAddr [("name", .s "edges"), ("mode", .s "lines")]
  let aAddr := freshAddr h3
  let h4 := heapSet h3 aAddr
    [("name", .s "arrows"), ("mode", .s "markers"), ("marker", .ref mAddr)]
  let trace_defaults : CDict := [("nodes", .ref nAddr), ("edges", .ref eAddr),
                                 ("arrows", .ref aAddr)]
  if "arrows" ∈ dictKeys trace_kwargs ∧ g.directed = false then
    .error arrowsErrMsg
  else
    let kw0 := if g.directed = false then dictDel trace_defaults "arrows"
               else trace_defaults
    let kw := dictUpdate kw0 trace_kwargs
    match g_to_plot_arrays g interp layout_func with
    | none => .error "KeyError: node missing from pos"
    | some (pos, e_pos, mid_data) =>
      let traces0 : List (String × PTrace) := []
      let traces1 := if "nodes" ∈ dictKeys kw then
          traces0 ++ [("nodes",
            ⟨"nodes", pos.map (fun p => some p.1), pos.map (fun p => some p.2)⟩)]
        else traces0
      let traces2 := if "edges" ∈ dictKeys kw then
          traces1 ++ [("edges", ⟨"edges", colX e_pos, colY e_pos⟩)]
        else traces1
      if "arrows" ∈ dictKeys kw then
        match mid_data with
        | none => .error "TypeError: cannot unpack None"
        | some (mid_pos, mid_angle) =>
          match dictGet kw "arrows" with
          | some (.ref arrA) =>
            match heapGet h4 arrA with
            | none => .error "invalid reference"
            | some arrowsDict =>
              match dictGet arrowsDict "marker" with
              | some (.ref mrkA) =>
                match heapGet h4 mrkA with
                | none => .error "invalid reference"
                | some markerDict =>
                  let h5 := if "angle" ∈ dictKeys markerDict then h4
                    else heapSet h4 mrkA
                      (dictSet markerDict "angle" (.rArr mid_angle))
                  .ok (h5, traces2 ++
                    [("arrows", ⟨"arrows", colX mid_pos, colY mid_pos⟩)])
              | some _ => .error "TypeError: marker is not a dict"
              | none => .error "KeyError: marker"
          | some _ => .error "TypeError: arrows config is not a dict"
          | none => .error "KeyError: arrows"
      else
        .ok (h4, traces2)

/-! ## Concrete fixtures used by the claims -/

/-- The per-edge `(start, end)` endpoint pairs of an edge-position dict,
flattened exactly as `edge_pos_to_array` flattens the dict values:
start, then end, per edge in order. -/
def toArr (ps : List (Pt × Pt)) : List Pt := ps.flatMap (fun p => [p.1, p.2])

/-- The scenario position mapping A=(0,0), B=(1,0), C=(1,1) with the
nodes A, B, C encoded as 0, 1, 2. -/
def posABC : ℕ → Option Pt := fun n =>
  if n = 0 then some (0, 0)
  else if n = 1 then some (1, 0)
  else if n = 2 then some (1, 1)
  else none

/-- The scenario DAG A→B, A→C, B→D, C→D with A,B,C,D as 0,1,2,3. -/
def gDag : Graph ℕ :=
  { nodes := [0, 1, 2, 3]
    adj := fun n =>
      if n = 0 then [1, 2] else if n = 1 then [3] else if n = 2 then [3] else []
    edges := [(0, 1), (0, 2), (1, 3), (2, 3)]
    directed := true
    planar := true
    name := some ""
    layout_func := none
    nodeData := fun _ => [] }

/-- The expected `diGraph_to_richTree` output on `gDag` rooted at 0. -/
def tDag : RTree :=
  .node "0" [.node "1" [.node "3" []], .node "2" [.node "3" []]]

/-- A two-node directed cycle 0→1→0. -/
def gCyc : Graph ℕ :=
  { nodes := [0, 1]
    adj := fun n => if n = 0 then [1] else if n = 1 then [0] else []
    edges := [(0, 1), (1, 0)]
    directed := true
    planar := true
    name := some ""
    layout_func := none
    nodeData := fun _ => [] }

/-- A single node with no edges and no node-attribute data at all. -/
def gNA : Graph ℕ :=
  { nodes := [0]
    adj := fun _ => []
    edges := []
    directed := true
    planar := true
    name := some ""
    layout_func := none
    nodeData := fun _ => [] }

/-- `gNA` with nonempty node-attribute data, to exhibit that the tree
builder never reads it. -/
def gNAd : Graph ℕ :=
  { nodes := [0]
    adj := fun _ => []
    edges := []
    directed := true
    planar := true
    name := some ""
    layout_func := none
    nodeData := fun _ => [("name", "zero")] }

/-- An undirected graph with zero edges. -/
def gU0 : Graph ℕ :=
  { nodes := [0, 1]
    adj := fun _ => []
    edges := []
    directed := false
    planar := true
    name := some ""
    layout_func := none
    nodeData := fun _ => [] }

/-- An undirected graph (one edge), for the arrows-request error. -/
def gU : Graph ℕ :=
  { nodes := [0, 1]
    adj := fun n => if n = 0 then [1] else if n = 1 then [0] else []
    edges := [(0, 1)]
    directed := false
    planar := true
    name := some ""
    layout_func := none
    nodeData := fun _ => [] }

/-- A directed one-edge graph 0→1, for the trace-building claims. -/
def gD : Graph ℕ :=
  { nodes := [0, 1]
    adj := fun n => if n = 0 then [1] else []
    edges := [(0, 1)]
    directed := true
    planar := true
    name := some ""
    layout_func := none
    nodeData := fun _ => [] }

/-- A layout interpretation placing node 0 at (0,0) and node 1 at (1,0),
whatever layout algorithm is selected. -/
def interpD : LayoutFn → PosDict ℕ := fun _ => [(0, (0, 0)), (1, (1, 0))]

/-- A layout interpretation returning an empty position dict. -/
def interp0 : LayoutFn → PosDict ℕ := fun _ => []

/-- The caller's arrows per-trace dict: a `marker` entry referring to the
marker dict at heap address 11. -/
def arrowsD : CDict := [("marker", CVal.ref 11)]

/-- The caller's `trace_kwargs`: an `arrows` entry referring to the
arrows dict at heap address 10. -/
def kwD : CDict := [("arrows", CVal.ref 10)]

/-- The caller's heap before the call: the arrows dict at address 10 and
an (initially empty) marker dict at address 11. -/
def heap0 : Heap := [(10, arrowsD), (11, [])]

/-- The caller's heap with an arbitrary marker dict at address 11. -/
def heapM (marker : CDict) : Heap := [(10, arrowsD), (11, marker)]

/-- `diGraph_to_richTree` terminates on the given arguments: some
recursion budget suffices (the source has no budget; exhausting every
budget means the source recursion never returns). -/
def buildTerminates {α : Type} [DecidableEq α] (g : Graph α) (n : Option α)
    (label_func : Graph α → α → String) (root_label : Option String) : Prop :=
  ∃ fuel, (diGraph_to_richTree g fuel n label_func root_label).isSome

/-! ## Claim C9: `g_to_edge_array` layout fallback -/

/-- C9: for a graph with no attached `layout_func`, `g_to_edge_array`
called with `layout_func=None` falls back to the planar-embedding layout
unconditionally — its choice is `planar` whatever the planarity flag
says, it is never the force-directed `spring` layout, and the output of
`g_to_edge_array` does not depend on the planarity of the graph at all —
whereas `g_to_plot_arrays` tests planarity and falls back to `spring`
for a non-planar graph. -/
theorem g_to_edge_array_planar_fallback :
    (∀ p : Bool,
      edge_array_layout_choice none none = LayoutFn.planar ∧
      edge_array_layout_choice none none ≠ LayoutFn.spring ∧
      plot_arrays_layout_choice none none p =
        (if p then LayoutFn.planar else LayoutFn.spring)) ∧
    (∀ (nodes : List ℕ) (adj : ℕ → List ℕ) (edges : List (ℕ × ℕ))
        (dir p b : Bool) (nm : Option String)
        (nd : ℕ → List (String × String)) (interp : LayoutFn → PosDict ℕ),
      g_to_edge_array ⟨nodes, adj, edges, dir, p, nm, none, nd⟩ interp none =
        g_to_edge_array ⟨nodes, adj, edges, dir, b, nm, none, nd⟩ interp none) := by
  constructor
  · intro p
    refine ⟨rfl, by decide, ?_⟩
    cases p <;> rfl
  · intro nodes adj edges dir p b nm nd interp
    rfl

/-! ## Claim C6: arrows requested for an undirected graph -/

/-- C6: if `"arrows"` is present in the caller-supplied trace
configuration and the graph is undirected, `g_to_traces` returns the
explanatory `TypeError` eagerly: the result is the error for *every*
layout interpretation, position assignment and heap — in particular even
when the positions would make the geometry computation fail — so the
rejection happens before any layout or geometry computation. -/
theorem g_to_traces_arrows_undirected_error {α : Type} [DecidableEq α]
    (g : Graph α) (interp : LayoutFn → PosDict α) (trace_kwargs : CDict)
    (layout_func : Option LayoutFn) (h0 : Heap)
    (hm : "arrows" ∈ dictKeys trace_kwargs) (hd : g.directed = false) :
    g_to_traces g interp trace_kwargs layout_func h0 =
      Except.error arrowsErrMsg := by
  simp only [g_to_traces]
  rw [if_pos ⟨hm, hd⟩]

/-- Witness for C6: the undirected one-edge graph with an `arrows` key
in the caller configuration, run with the empty layout (which could not
produce any geometry), is rejected with the arrows error. -/
theorem g_to_traces_arrows_undirected_error_witness :
    "arrows" ∈ dictKeys kwD ∧ gU.directed = false ∧
      g_to_traces gU interp0 kwD none [] = Except.error arrowsErrMsg :=
  ⟨by simp [kwD, dictKeys], rfl,
    g_to_traces_arrows_undirected_error gU interp0 kwD none []
      (by simp [kwD, dictKeys]) rfl⟩

/-! ## Claim C7: zero edges -/

/-- C7: with zero edges the edge endpoint lookup returns an empty dict
for every position mapping and the flattening returns an empty array,
with no error — but the separator-insertion stage *raises*:
`edge_pos_to_array` built the one-dimensional `np.array([])`, and
`np.insert`'s assignment of the 2-element NaN row into an empty index
selection of shape `(0,)` is a broadcast shape mismatch (`ValueError`).
Consequently `g_to_plot_arrays` raises on every zero-edge graph,
directed (`gNA`) or undirected (`gU0`), instead of returning empty
arrays. -/
theorem zero_edges_raises_at_separator_stage :
    (∀ pos : ℕ → Option Pt, edge_pos ([] : List (ℕ × ℕ)) pos = some []) ∧
    edge_pos_to_array ([] : List ((ℕ × ℕ) × (Pt × Pt))) = [] ∧
    separate_edges ([] : List Pt) = none ∧
    g_to_plot_arrays gNA interp0 none = none ∧
    g_to_plot_arrays gU0 interp0 none = none :=
  ⟨fun _ => rfl, rfl, rfl, rfl, rfl⟩

/-! ## Structure of the separated edge array -/

lemma toArr_length (ps : List (Pt × Pt)) : (toArr ps).length = 2 * ps.length := by
  induction ps with
  | nil => rfl
  | cons p ps ih =>
    simp only [toArr, List.flatMap_cons, List.length_append, List.length_cons,
      List.length_nil] at ih ⊢
    omega

lemma sepPos_shift (m k : ℕ) (hk : 2 ≤ k) :
    sepPos (m + 2) (k + 2) = sepPos m k := by
  simp only [sepPos, decide_eq_decide]
  omega

lemma sepGo_shift (l : List Pt) : ∀ k m : ℕ, 2 ≤ k →
    sepGo (sepPos (m + 2)) (k + 2) l = sepGo (sepPos m) k l := by
  induction l with
  | nil => intros; rfl
  | cons p rest ih =>
    intro k m hk
    simp only [sepGo]
    rw [sepPos_shift m k hk, ih (k + 1) m (by omega)]

lemma separate_toArr_cons (q : Pt × Pt) (ps : List (Pt × Pt)) :
    sepRows (toArr (q :: ps)) =
      some q.1 :: some q.2 ::
        (match ps with
         | [] => []
         | _ :: _ => none :: sepRows (toArr ps)) := by
  cases ps with
  | nil => rfl
  | cons r ps' =>
    have harr : toArr (q :: r :: ps') = q.1 :: q.2 :: r.1 :: r.2 :: toArr ps' := by
      simp [toArr, List.flatMap_cons]
    have harr' : toArr (r :: ps') = r.1 :: r.2 :: toArr ps' := by
      simp [toArr, List.flatMap_cons]
    have h0 : sepPos (2 * ps'.length + 4) 0 = false := by
      simp only [sepPos]; apply decide_eq_false; omega
    have h1 : sepPos (2 * ps'.length + 4) 1 = false := by
      simp only [sepPos]; apply decide_eq_false; omega
    have h2 : sepPos (2 * ps'.length + 4) 2 = true := by
      unfold sepPos; apply decide_eq_true; exact ⟨by omega, by omega, by omega⟩
    have h3 : sepPos (2 * ps'.length + 4) 3 = false := by
      simp only [sepPos]; apply decide_eq_false; omega
    have h0' : sepPos (2 * ps'.length + 2) 0 = false := by
      simp only [sepPos]; apply decide_eq_false; omega
    have h1' : sepPos (2 * ps'.length + 2) 1 = false := by
      simp only [sepPos]; apply decide_eq_false; omega
    have hshift : sepGo (sepPos (2 * ps'.length + 4)) 4 (toArr ps') =
        sepGo (sepPos (2 * ps'.length + 2)) 2 (toArr ps') := by
      have hs := sepGo_shift (toArr ps') 2 (2 * ps'.length + 2) (by omega)
      have e1 : 2 * ps'.length + 2 + 2 = 2 * ps'.length + 4 := by omega
      rw [e1] at hs
      exact hs
    have hn : (q.1 :: q.2 :: r.1 :: r.2 :: toArr ps').length =
        2 * ps'.length + 4 := by
      simp [toArr_length]
    have hn' : (r.1 :: r.2 :: toArr ps').length = 2 * ps'.length + 2 := by
      simp [toArr_length]
    unfold sepRows
    rw [harr, harr', hn, hn']
    simp only [sepGo, h0, h1, h2, h3, h0', h1', List.cons_append,
      List.nil_append, if_true, if_false, Bool.false_eq_true, ite_false,
      ite_true]
    rw [hshift]

lemma separate_toArr_length (ps : List (Pt × Pt)) :
    (sepRows (toArr ps)).length =
      if ps.length = 0 then 0 else 3 * ps.length - 1 := by
  induction ps with
  | nil => rfl
  | cons q ps ih =>
    rw [separate_toArr_cons]
    cases ps with
    | nil => rfl
    | cons r ps' =>
      simp only [List.length_cons] at ih ⊢
      simp only [ih]
      rw [if_neg (by omega : ¬(ps'.length + 1 = 0)),
        if_neg (by omega : ¬(ps'.length + 1 + 1 = 0))]
      omega

lemma separate_toArr_get (ps : List (Pt × Pt)) :
    ∀ i row, (sepRows (toArr ps)).get? i = some row →
      (row = none ↔ i % 3 = 2) := by
  induction ps with
  | nil =>
    intro i row h
    simp [sepRows, toArr, sepGo] at h
  | cons q ps ih =>
    intro i row h
    rw [separate_toArr_cons] at h
    cases ps with
    | nil =>
      match i with
      | 0 =>
        simp only [List.get?_cons_zero, Option.some.injEq] at h
        subst h
        simp
      | 1 =>
        simp only [List.get?_cons_succ, List.get?_cons_zero,
          Option.some.injEq] at h
        subst h
        simp
      | (i + 2) =>
        simp only [List.get?_cons_succ] at h
        simp at h
    | cons r ps' =>
      match i with
      | 0 =>
        simp only [List.get?_cons_zero, Option.some.injEq] at h
        subst h
        simp
      | 1 =>
        simp only [List.get?_cons_succ, List.get?_cons_zero,
          Option.some.injEq] at h
        subst h
        simp
      | 2 =>
        simp only [List.get?_cons_succ, List.get?_cons_zero,
          Option.some.injEq] at h
        subst h
        simp
      | (i + 3) =>
        simp only [List.get?_cons_succ] at h
        have hi := ih i row h
        have hmod : (i + 3) % 3 = i % 3 := Nat.add_mod_right i 3
        rw [hmod]
        exact hi

/-! ## `edge_pos` dict behaviour -/

lemma pyDictInsert_keys {κ ν : Type} [DecidableEq κ] (k : κ) (v : ν)
    (d : List (κ × ν)) :
    (pyDictInsert k v d).map Prod.fst =
      if k ∈ d.map Prod.fst then d.map Prod.fst else d.map Prod.fst ++ [k] := by
  unfold pyDictInsert
  split
  · rename_i hmem
    rw [List.map_map]
    apply List.map_congr_left
    intro kv _
    by_cases hkv : kv.1 = k
    · simp [hkv]
    · simp [hkv]
  · simp

lemma pyDictInsert_keys_nodup {κ ν : Type} [DecidableEq κ] (k : κ) (v : ν)
    (d : List (κ × ν)) (h : (d.map Prod.fst).Nodup) :
    ((pyDictInsert k v d).map Prod.fst).Nodup := by
  rw [pyDictInsert_keys]
  split
  · exact h
  · rename_i hmem
    simp [List.nodup_append, h, hmem]

lemma pyDictInsert_keys_toFinset {κ ν : Type} [DecidableEq κ] (k : κ) (v : ν)
    (d : List (κ × ν)) :
    ((pyDictInsert k v d).map Prod.fst).toFinset =
      insert k (d.map Prod.fst).toFinset := by
  rw [pyDictInsert_keys]
  split
  · rename_i hmem
    rw [Finset.insert_eq_self.mpr (List.mem_toFinset.mpr hmem)]
  · simp [List.toFinset_append, Finset.union_comm, Finset.insert_eq]

lemma pyDictInsert_mem {κ ν : Type} [DecidableEq κ] (k : κ) (v : ν)
    (d : List (κ × ν)) (pr : κ × ν) (h : pr ∈ pyDictInsert k v d) :
    pr = (k, v) ∨ pr ∈ d := by
  unfold pyDictInsert at h
  split at h
  · rw [List.mem_map] at h
    obtain ⟨kv, hkv, hpr⟩ := h
    by_cases hk : kv.1 = k
    · rw [if_pos hk] at hpr
      exact Or.inl hpr.symm
    · rw [if_neg hk] at hpr
      exact Or.inr (hpr ▸ hkv)
  · rw [List.mem_append] at h
    rcases h with h | h
    · exact Or.inr h
    · simp at h
      exact Or.inl (by rw [h])

lemma edge_posAux_spec {α : Type} [DecidableEq α] (pos : α → Option Pt) :
    ∀ (edges : List (α × α)) (d ep : List ((α × α) × (Pt × Pt))),
      edge_posAux pos edges d = some ep →
      ((d.map Prod.fst).Nodup → (ep.map Prod.fst).Nodup) ∧
      (ep.map Prod.fst).toFinset =
        (d.map Prod.fst).toFinset ∪ edges.toFinset ∧
      (∀ pr ∈ ep,
        pr ∈ d ∨ (pos pr.1.1 = some pr.2.1 ∧ pos pr.1.2 = some pr.2.2)) := by
  intro edges
  induction edges with
  | nil =>
    intro d ep h
    simp only [edge_posAux, Option.some.injEq] at h
    subst h
    exact ⟨id, by simp, fun pr hpr => Or.inl hpr⟩
  | cons e rest ih =>
    intro d ep h
    simp only [edge_posAux] at h
    cases h1 : pos e.1 with
    | none => rw [h1] at h; exact absurd h (by simp)
    | some ps =>
      cases h2 : pos e.2 with
      | none => rw [h1, h2] at h; exact absurd h (by simp)
      | some pe =>
        rw [h1, h2] at h
        obtain ⟨hnd, hfin, hmem⟩ := ih (pyDictInsert e (ps, pe) d) ep h
        refine ⟨fun hd => hnd (pyDictInsert_keys_nodup _ _ _ hd), ?_, ?_⟩
        · rw [hfin, pyDictInsert_keys_toFinset]
          simp only [List.toFinset_cons]
          rw [Finset.insert_union, Finset.union_comm,
            Finset.union_insert, Finset.union_comm]
        · intro pr hpr
          rcases hmem pr hpr with hin | hvals
          · rcases pyDictInsert_mem _ _ _ _ hin with heq | hind
            · subst heq
              exact Or.inr ⟨h1, h2⟩
            · exact Or.inl hind
          · exact Or.inr hvals

lemma edge_pos_to_array_length {α : Type}
    (ep : List ((α × α) × (Pt × Pt))) :
    (edge_pos_to_array ep).length = 2 * ep.length := by
  induction ep with
  | nil => rfl
  | cons kv ep ih =>
    simp only [edge_pos_to_array, List.flatMap_cons, List.length_append,
      List.length_cons, List.length_nil] at ih ⊢
    omega

lemma edge_pos_to_array_eq_toArr {α : Type}
    (ep : List ((α × α) × (Pt × Pt))) :
    edge_pos_to_array ep = toArr (ep.map Prod.snd) := by
  induction ep with
  | nil => rfl
  | cons kv ep ih =>
    simp only [edge_pos_to_array, toArr, List.flatMap_cons, List.map_cons] at ih ⊢
    rw [ih]

lemma edge_posAux_length_nodup {α : Type} [DecidableEq α]
    (pos : α → Option Pt) :
    ∀ (edges : List (α × α)) (d ep : List ((α × α) × (Pt × Pt))),
      edges.Nodup → (∀ e ∈ edges, e ∉ d.map Prod.fst) →
      edge_posAux pos edges d = some ep → ep.length = d.length + edges.length := by
  intro edges
  induction edges with
  | nil =>
    intro d ep _ _ h
    simp only [edge_posAux, Option.some.injEq] at h
    subst h
    simp
  | cons e rest ih =>
    intro d ep hnd hdisj h
    simp only [edge_posAux] at h
    cases h1 : pos e.1 with
    | none => rw [h1] at h; exact absurd h (by simp)
    | some ps =>
      cases h2 : pos e.2 with
      | none => rw [h1, h2] at h; exact absurd h (by simp)
      | some pe =>
        rw [h1, h2] at h
        have hnotin : e ∉ d.map Prod.fst := hdisj e (by simp)
        have hins : pyDictInsert e (ps, pe) d = d ++ [(e, (ps, pe))] := by
          unfold pyDictInsert
          rw [if_neg hnotin]
        have hdisj' : ∀ e' ∈ rest, e' ∉ (pyDictInsert e (ps, pe) d).map Prod.fst := by
          intro e' he'
          rw [hins]
          simp only [List.map_append, List.mem_append, List.map_cons,
            List.map_nil, List.mem_singleton, not_or]
          constructor
          · exact hdisj e' (by simp [he'])
          · intro hcontr
            rw [List.nodup_cons] at hnd
            exact hnd.1 (by simpa [hcontr] using he')
        have := ih (pyDictInsert e (ps, pe) d) ep (List.nodup_cons.mp hnd).2
          hdisj' h
        rw [this, hins]
        simp
        omega

/-! ## Claim C1: shape of the separated edge array -/

/-- C1 (counterexample): on the spec's own scenario — the graph with
edges [(A,B),(B,C)] and positions A=(0,0), B=(1,0), C=(1,1) — the
separated edge array is `[(0,0),(1,0),sentinel,(1,0),(1,1)]`: five rows,
not the claimed `3*E = 6`, and not the claimed six-row array with a
trailing sentinel.  `np.insert(arr, slice(2, -1, 2), nan)` inserts the
break rows *between* consecutive edges only, never after the last. -/
theorem separated_scenario_five_rows :
    edge_pos [(0, 1), (1, 2)] posABC =
      some [((0, 1), ((0, 0), (1, 0))), ((1, 2), ((1, 0), (1, 1)))] ∧
    separate_edges (edge_pos_to_array
        [((0, 1), ((0, 0), (1, 0))), ((1, 2), ((1, 0), (1, 1)))]) =
      some [some (0, 0), some (1, 0), none, some (1, 0), some (1, 1)] ∧
    ([some ((0 : ℚ), (0 : ℚ)), some (1, 0), none, some (1, 0),
        some (1, 1)] : List Row).length ≠ 3 * 2 ∧
    separate_edges (edge_pos_to_array
        [((0, 1), ((0, 0), (1, 0))), ((1, 2), ((1, 0), (1, 1)))]) ≠
      some [some (0, 0), some (1, 0), none, some (1, 0), some (1, 1),
        none] := by
  refine ⟨by decide, by decide, by decide, by decide⟩

/-- C1 (amended): for every graph with `E ≥ 1` (distinct) edges whose
endpoints all have positions, the separated edge array has length
`3*E - 1` — one sentinel between consecutive edges, none after the last —
and a row is the NaN sentinel exactly when its index `i` satisfies
`i % 3 = 2` (all other rows are finite). -/
theorem separated_edge_array_structure {α : Type} [DecidableEq α]
    (edges : List (α × α)) (pos : α → Option Pt)
    (ep : List ((α × α) × (Pt × Pt)))
    (hne : edges ≠ []) (hnd : edges.Nodup) (h : edge_pos edges pos = some ep) :
    separate_edges (edge_pos_to_array ep) =
      some (sepRows (edge_pos_to_array ep)) ∧
    (sepRows (edge_pos_to_array ep)).length = 3 * edges.length - 1 ∧
    (∀ i row, (sepRows (edge_pos_to_array ep)).get? i = some row →
      (row = none ↔ i % 3 = 2)) := by
  have hlen : ep.length = edges.length := by
    have hl := edge_posAux_length_nodup pos edges [] ep hnd (by simp) h
    simpa using hl
  have harr : edge_pos_to_array ep = toArr (ep.map Prod.snd) :=
    edge_pos_to_array_eq_toArr ep
  have hplen : (ep.map Prod.snd).length = edges.length := by simp [hlen]
  have hepne : ep ≠ [] := by
    intro hc
    subst hc
    simp only [List.length_nil] at hlen
    exact hne (List.length_eq_zero.mp hlen.symm)
  refine ⟨?_, ?_, ?_⟩
  · unfold separate_edges
    rw [if_neg ?_]
    cases ep with
    | nil => exact absurd rfl hepne
    | cons kv tl => simp [edge_pos_to_array]
  · rw [harr, separate_toArr_length, hplen,
      if_neg (fun hc => hne (List.length_eq_zero.mp hc))]
  · rw [harr]
    exact separate_toArr_get _

/-- Witness for C1 (amended): the two-edge scenario graph has a
separated array of length `3*2 - 1 = 5` with the sentinel at index 2. -/
theorem separated_edge_array_structure_witness :
    ([(0, 1), (1, 2)] : List (ℕ × ℕ)) ≠ [] ∧
    ([(0, 1), (1, 2)] : List (ℕ × ℕ)).Nodup ∧
    edge_pos [(0, 1), (1, 2)] posABC =
      some [((0, 1), ((0, 0), (1, 0))), ((1, 2), ((1, 0), (1, 1)))] ∧
    (separate_edges (edge_pos_to_array
        [((0, 1), ((0, 0), (1, 0))), ((1, 2), ((1, 0), (1, 1)))]) =
      some (sepRows (edge_pos_to_array
        [((0, 1), ((0, 0), (1, 0))), ((1, 2), ((1, 0), (1, 1)))])) ∧
    (sepRows (edge_pos_to_array
        [((0, 1), ((0, 0), (1, 0))), ((1, 2), ((1, 0), (1, 1)))])).length =
      3 * ([(0, 1), (1, 2)] : List (ℕ × ℕ)).length - 1 ∧
    (∀ i row, (sepRows (edge_pos_to_array
        [((0, 1), ((0, 0), (1, 0))), ((1, 2), ((1, 0), (1, 1)))])).get? i =
        some row → (row = none ↔ i % 3 = 2))) :=
  ⟨by decide, by decide, by decide,
    separated_edge_array_structure [(0, 1), (1, 2)] posABC
      [((0, 1), ((0, 0), (1, 0))), ((1, 2), ((1, 0), (1, 1)))]
      (by decide) (by decide) (by decide)⟩

/-! ## Claim C10: `edge_pos` collapses duplicate edges -/

/-- C10: `edge_pos` returns a dict keyed by the edge pair: its keys are
duplicate-free, a pair is a key exactly when it occurs in the edge
iterable, the dict has one entry per *distinct* edge, every entry holds
the endpoint positions looked up from `pos` (so for duplicate
occurrences the retained value is the last — and every — occurrence's
endpoint positions), and the flattened coordinate array has
`2 × (number of distinct edges)` rows. -/
theorem edge_pos_collapses_duplicate_edges {α : Type} [DecidableEq α]
    (edges : List (α × α)) (pos : α → Option Pt)
    (ep : List ((α × α) × (Pt × Pt))) (h : edge_pos edges pos = some ep) :
    (ep.map Prod.fst).Nodup ∧
    (∀ e, e ∈ ep.map Prod.fst ↔ e ∈ edges) ∧
    ep.length = edges.toFinset.card ∧
    (∀ pr ∈ ep, pos pr.1.1 = some pr.2.1 ∧ pos pr.1.2 = some pr.2.2) ∧
    (edge_pos_to_array ep).length = 2 * edges.toFinset.card := by
  obtain ⟨hnd, hfin, hmem⟩ := edge_posAux_spec pos edges [] ep h
  have hnodup := hnd (by simp)
  have hfin' : (ep.map Prod.fst).toFinset = edges.toFinset := by simpa using hfin
  have hcard : ep.length = edges.toFinset.card := by
    rw [← hfin', List.toFinset_card_of_nodup hnodup, List.length_map]
  refine ⟨hnodup, ?_, hcard, ?_, ?_⟩
  · intro e
    rw [← List.mem_toFinset, hfin', List.mem_toFinset]
  · intro pr hpr
    rcases hmem pr hpr with h0 | hv
    · exact absurd h0 (List.not_mem_nil pr)
    · exact hv
  · rw [edge_pos_to_array_length, hcard]

/-- Witness for C10: the edge iterable `[(0,1),(0,1)]` (the same pair
twice) collapses to a single dict entry, and the coordinate array has
`2 × 1 = 2` rows rather than `2 × 2 = 4`. -/
theorem edge_pos_collapses_duplicate_edges_witness :
    edge_pos [(0, 1), (0, 1)] posABC = some [((0, 1), ((0, 0), (1, 0)))] ∧
    ([(0, 1), (0, 1)] : List (ℕ × ℕ)).toFinset.card = 1 ∧
    (([((0, 1), ((0, 0), (1, 0)))] :
        List ((ℕ × ℕ) × (Pt × Pt))).map Prod.fst).Nodup ∧
    (∀ e, e ∈ ([((0, 1), ((0, 0), (1, 0)))] :
        List ((ℕ × ℕ) × (Pt × Pt))).map Prod.fst ↔
      e ∈ ([(0, 1), (0, 1)] : List (ℕ × ℕ))) ∧
    ([((0, 1), ((0, 0), (1, 0)))] : List ((ℕ × ℕ) × (Pt × Pt))).length =
      ([(0, 1), (0, 1)] : List (ℕ × ℕ)).toFinset.card ∧
    (∀ pr ∈ ([((0, 1), ((0, 0), (1, 0)))] : List ((ℕ × ℕ) × (Pt × Pt))),
      posABC pr.1.1 = some pr.2.1 ∧ posABC pr.1.2 = some pr.2.2) ∧
    (edge_pos_to_array ([((0, 1), ((0, 0), (1, 0)))] :
        List ((ℕ × ℕ) × (Pt × Pt)))).length =
      2 * ([(0, 1), (0, 1)] : List (ℕ × ℕ)).toFinset.card :=
  ⟨by decide, by decide,
    (edge_pos_collapses_duplicate_edges [(0, 1), (0, 1)] posABC
      [((0, 1), ((0, 0), (1, 0)))] (by decide)).1,
    (edge_pos_collapses_duplicate_edges [(0, 1), (0, 1)] posABC
      [((0, 1), ((0, 0), (1, 0)))] (by decide)).2.1,
    (edge_pos_collapses_duplicate_edges [(0, 1), (0, 1)] posABC
      [((0, 1), ((0, 0), (1, 0)))] (by decide)).2.2.1,
    (edge_pos_collapses_duplicate_edges [(0, 1), (0, 1)] posABC
      [((0, 1), ((0, 0), (1, 0)))] (by decide)).2.2.2.1,
    (edge_pos_collapses_duplicate_edges [(0, 1), (0, 1)] posABC
      [((0, 1), ((0, 0), (1, 0)))] (by decide)).2.2.2.2⟩

/-! ## Claim C4: orientation angle of the midpoint data -/

lemma sliceStep3_sep_starts (ps : List (Pt × Pt)) :
    sliceStep3 (sepRows (toArr ps)) = ps.map (fun p => some p.1) := by
  induction ps with
  | nil => rfl
  | cons q ps ih =>
    rw [separate_toArr_cons]
    cases ps with
    | nil => rfl
    | cons r ps' =>
      show sliceStep3 (some q.1 :: some q.2 :: none ::
          sepRows (toArr (r :: ps'))) = _
      rw [show sliceStep3 (some q.1 :: some q.2 :: none ::
          sepRows (toArr (r :: ps'))) =
          some q.1 :: sliceStep3 (sepRows (toArr (r :: ps'))) from rfl,
        ih]
      rfl

lemma sliceStep3_sep_ends (ps : List (Pt × Pt)) :
    sliceStep3 ((sepRows (toArr ps)).drop 1) =
      ps.map (fun p => some p.2) := by
  induction ps with
  | nil => rfl
  | cons q ps ih =>
    rw [separate_toArr_cons]
    cases ps with
    | nil => rfl
    | cons r ps' =>
      show sliceStep3 ((some q.1 :: some q.2 :: none ::
          sepRows (toArr (r :: ps'))).drop 1) = _
      rw [separate_toArr_cons r ps']
      cases ps' with
      | nil =>
        show sliceStep3 [some q.2, none, some r.1, some r.2] = _
        rfl
      | cons t ps'' =>
        show sliceStep3 (some q.2 :: none :: some r.1 :: some r.2 :: none ::
            sepRows (toArr (t :: ps''))) = _
        rw [show sliceStep3 (some q.2 :: none :: some r.1 :: some r.2 :: none ::
            sepRows (toArr (t :: ps''))) =
            some q.2 :: sliceStep3 (some r.2 :: none ::
              sepRows (toArr (t :: ps''))) from rfl]
        have hih := ih
        rw [separate_toArr_cons r (t :: ps'')] at hih
        simp only [List.drop_succ_cons, List.drop_zero] at hih
        rw [hih]
        rfl

lemma zipWith_map_same {β γ δ ε : Type} (f : γ → δ → ε) (g : β → γ)
    (h : β → δ) (l : List β) :
    List.zipWith f (l.map g) (l.map h) = l.map (fun b => f (g b) (h b)) := by
  induction l with
  | nil => rfl
  | cons b l ih => simp [ih]

lemma arctan2_one_zero_deg : arctan2 1 0 * (180 / Real.pi) = 90 := by
  unfold arctan2
  rw [if_neg (by norm_num), if_neg (by norm_num), if_pos (by norm_num)]
  have hpi := Real.pi_ne_zero
  field_simp
  ring

lemma arctan2_zero_one_deg : arctan2 0 1 * (180 / Real.pi) = 0 := by
  unfold arctan2
  rw [if_pos (by norm_num : (0 : ℝ) < 1)]
  norm_num [Real.arctan_zero]

/-- C4 (amended): for every separated edge array the midpoint
calculator's angle array is, per edge with start `p.1` and end `p.2`,
the two-argument arctangent applied with the *horizontal* (x) component
of `end − start` as the FIRST argument and the *vertical* (y) component
as the SECOND, converted to degrees — the opposite argument order to the
claim's `atan2(d.y, d.x)` (the source passes `mid_vector[:, 0]`, the x
column, first). -/
theorem mid_angle_is_atan2_x_y (ps : List (Pt × Pt)) (rows : List Row)
    (h : separate_edges (toArr ps) = some rows) :
    (edge_sep_to_mid_data rows).2 =
      ps.map (fun p =>
        some (arctan2 ((p.2.1 - p.1.1 : ℚ) : ℝ) ((p.2.2 - p.1.2 : ℚ) : ℝ) *
          (180 / Real.pi))) := by
  have hrows : rows = sepRows (toArr ps) := by
    unfold separate_edges at h
    by_cases hc : toArr ps = []
    · rw [if_pos hc] at h
      exact absurd h (by simp)
    · rw [if_neg hc] at h
      simp only [Option.some.injEq] at h
      exact h.symm
  rw [hrows]
  simp only [edge_sep_to_mid_data]
  rw [sliceStep3_sep_starts, sliceStep3_sep_ends, zipWith_map_same,
    List.map_map]
  rfl

/-- Witness for C4 (amended): the single edge (0,0)→(1,0), whose
separated array is its two endpoint rows. -/
theorem mid_angle_is_atan2_x_y_witness :
    separate_edges (toArr [((0, 0), (1, 0))]) =
      some [some (0, 0), some (1, 0)] ∧
    (edge_sep_to_mid_data [some (0, 0), some (1, 0)]).2 =
      ([((0, 0), (1, 0))] : List (Pt × Pt)).map (fun p =>
        some (arctan2 ((p.2.1 - p.1.1 : ℚ) : ℝ) ((p.2.2 - p.1.2 : ℚ) : ℝ) *
          (180 / Real.pi))) :=
  ⟨by decide,
    mid_angle_is_atan2_x_y [((0, 0), (1, 0))] [some (0, 0), some (1, 0)]
      (by decide)⟩

/-- C4 (counterexample): for the single edge from (0,0) to (1,0) — a
direction vector pointing along the positive x-axis — the computed angle
is 90°, whereas the claim's formula `atan2(d.y, d.x)` in degrees gives
0°; the two disagree, so the first `arctan2` argument is not the
vertical component. -/
theorem mid_angle_scenario_ninety_degrees :
    separate_edges (toArr [((0, 0), (1, 0))]) =
      some [some (0, 0), some (1, 0)] ∧
    (edge_sep_to_mid_data [some (0, 0), some (1, 0)]).2 = [some (90 : ℝ)] ∧
    arctan2 (0 : ℝ) 1 * (180 / Real.pi) = 0 ∧
    ((90 : ℝ)) ≠ 0 := by
  refine ⟨by decide, ?_, arctan2_zero_one_deg, by norm_num⟩
  show [Option.map
      (fun d : Pt => arctan2 (d.1 : ℝ) (d.2 : ℝ) * (180 / Real.pi))
      (some ((1 : ℚ) - 0, (0 : ℚ) - 0))] = [some (90 : ℝ)]
  simp only [Option.map_some']
  norm_num [arctan2_one_zero_deg]

/-! ## Claims C2, C3, C5: the tree builder -/

lemma mapM_option_length {β γ : Type} (f : β → Option γ) :
    ∀ (l : List β) (bs : List γ), l.mapM f = some bs → bs.length = l.length := by
  intro l
  induction l with
  | nil =>
    intro bs h
    simp only [List.mapM_nil, pure, Option.some.injEq] at h
    subst h
    rfl
  | cons b l ih =>
    intro bs h
    rw [List.mapM_cons] at h
    cases hb : f b with
    | none => rw [hb] at h; exact absurd h (by simp)
    | some c =>
      rw [hb] at h
      cases hl : l.mapM f with
      | none => rw [hl] at h; exact absurd h (by simp)
      | some cs =>
        rw [hl] at h
        simp only [Option.bind_eq_bind, Option.some_bind, pure,
          Option.some.injEq] at h
        subst h
        simp [ih cs hl]

lemma mapM_option_congr {β γ : Type} (f g : β → Option γ) :
    ∀ l : List β, (∀ b ∈ l, f b = g b) → l.mapM f = l.mapM g := by
  intro l
  induction l with
  | nil => intro _; rfl
  | cons b l ih =>
    intro h
    rw [List.mapM_cons, List.mapM_cons, h b (by simp),
      ih (fun b hb => h b (by simp [hb]))]

/-- C2 (counterexample): on the DAG A→B, A→C, B→D, C→D rooted at A, the
node D (= 3) appears *twice* in the resulting tree (once under each
parent), not once, and the tree has 5 labeled nodes, not 4: the source
keeps no visited set. -/
theorem tree_shared_node_appears_twice :
    (diGraph_to_richTree gDag 10 (some 0) default_label_func none).map
      (countLabel "3") = some 2 ∧ (2 : ℕ) ≠ 1 ∧
    (diGraph_to_richTree gDag 10 (some 0) default_label_func none).map
      countNodes = some 5 ∧ (5 : ℕ) ≠ 4 :=
  ⟨rfl, by decide, rfl, by decide⟩

/-- C2 (amended): the tree builder creates one tree node per *visit*,
one child per successor edge of the visited node — with no visited set,
a node reachable via several parents is visited once per parent.  In
general every built node has exactly as many children as its graph node
has successors; on the scenario DAG rooted at A the resulting tree is
`0[1[3], 2[3]]`: five labeled nodes, D (= 3) appearing exactly once
under *each* of its two parents. -/
theorem tree_one_node_per_visit {α : Type} [DecidableEq α] (g : Graph α)
    (fuel : ℕ) (v : α) (lf : Graph α → α → String) (rl : Option String)
    (t : RTree)
    (h : diGraph_to_richTree g (fuel + 1) (some v) lf rl = some t) :
    t.children.length = (g.adj v).length ∧
    diGraph_to_richTree gDag 10 (some 0) default_label_func none =
      some tDag ∧
    countNodes tDag = 5 ∧ countLabel "3" tDag = 2 ∧
    countLabel "0" tDag = 1 ∧ countLabel "1" tDag = 1 ∧
    countLabel "2" tDag = 1 := by
  refine ⟨?_, rfl, rfl, rfl, rfl, rfl, rfl⟩
  simp only [diGraph_to_richTree] at h
  cases hm : (g.adj v).mapM (fun nb =>
      if 0 < (g.adj nb).length then
        diGraph_to_richTree g fuel (some nb) lf none
      else
        some (RTree.node (lf g nb) [])) with
  | none => rw [hm] at h; exact absurd h (by simp)
  | some children =>
    rw [hm] at h
    simp only [Option.map_some', Option.some.injEq] at h
    subst h
    exact mapM_option_length _ _ _ hm

/-- Witness for C2 (amended): applied to the scenario DAG at its root,
whose tree has two children — one per successor edge of A. -/
theorem tree_one_node_per_visit_witness :
    diGraph_to_richTree gDag (9 + 1) (some 0) default_label_func none =
      some tDag ∧
    (tDag.children.length = (gDag.adj 0).length ∧
      diGraph_to_richTree gDag 10 (some 0) default_label_func none =
        some tDag ∧
      countNodes tDag = 5 ∧ countLabel "3" tDag = 2 ∧
      countLabel "0" tDag = 1 ∧ countLabel "1" tDag = 1 ∧
      countLabel "2" tDag = 1) :=
  ⟨rfl, tree_one_node_per_visit gDag 9 0 default_label_func none tDag rfl⟩

lemma cyc_stuck : ∀ fuel : ℕ,
    diGraph_to_richTree gCyc fuel (some 0) default_label_func none = none ∧
    diGraph_to_richTree gCyc fuel (some 1) default_label_func none = none := by
  intro fuel
  induction fuel with
  | zero => exact ⟨rfl, rfl⟩
  | succ fuel ih =>
    constructor
    · simp only [diGraph_to_richTree,
        show gCyc.adj 0 = [1] from rfl, List.mapM_cons, List.mapM_nil]
      rw [if_pos (by decide : 0 < (gCyc.adj 1).length), ih.2]
      rfl
    · simp only [diGraph_to_richTree,
        show gCyc.adj 1 = [0] from rfl, List.mapM_cons, List.mapM_nil]
      rw [if_pos (by decide : 0 < (gCyc.adj 0).length), ih.1]
      rfl

/-- C3 (counterexample): the claim that the builder terminates on every
finite directed graph fails: on the two-node cycle 0→1→0 rooted at 0 no
recursion budget ever suffices — there is no visited-set check, so the
source recursion never returns. -/
theorem tree_builder_cycle_never_terminates :
    ¬ buildTerminates gCyc (some 0) default_label_func none := by
  rintro ⟨fuel, hf⟩
  rw [(cyc_stuck fuel).1] at hf
  simp at hf

/-- C3 (amended): the tree builder has no visited set: a node is never
"skipped as already visited".  The recursion does terminate on the
scenario DAG, but on a graph with a cycle reachable from the start node
it recurses forever: on the two-node cycle rooted at 0 every recursion
budget is exhausted. -/
theorem tree_builder_diverges_on_cycle :
    (∀ fuel : ℕ,
      diGraph_to_richTree gCyc fuel (some 0) default_label_func none =
        none) ∧
    (diGraph_to_richTree gDag 10 (some 0) default_label_func none).isSome =
      true :=
  ⟨fun fuel => (cyc_stuck fuel).1, rfl⟩

/-- C5 (counterexample): a node with *no* attribute data at all does not
make the tree builder raise any lookup error: the build succeeds and the
node is labeled by its string form (the default label function is
`str(n)`; no prioritized attribute list exists in the source). -/
theorem tree_build_succeeds_without_attributes :
    gNA.nodeData 0 = [] ∧
    diGraph_to_richTree gNA 3 (some 0) default_label_func none =
      some (RTree.node "0" []) :=
  ⟨rfl, rfl⟩

/-- C5 (amended): the tree builder performs no attribute-based label
resolution at all: with the default label function its output depends
only on the node list, the adjacency and the graph name — two graphs
differing in any other field (in particular in their per-node attribute
data) build identical trees, so no lookup error over attribute names can
ever be raised. -/
theorem tree_ignores_node_data {α : Type} [DecidableEq α] [ToString α]
    (g1 g2 : Graph α) (hn : g1.nodes = g2.nodes) (ha : g1.adj = g2.adj)
    (hm : g1.name = g2.name) :
    ∀ (fuel : ℕ) (n : Option α) (rl : Option String),
      diGraph_to_richTree g1 fuel n default_label_func rl =
        diGraph_to_richTree g2 fuel n default_label_func rl := by
  intro fuel
  induction fuel with
  | zero => intro n rl; rfl
  | succ fuel ih =>
    intro n rl
    have hpred : predList g1 = predList g2 := by
      funext m
      unfold predList
      rw [hn, ha]
    simp only [diGraph_to_richTree, hn, ha, hm, hpred, default_label_func]
    cases n with
    | none =>
      apply congrArg
      apply mapM_option_congr
      intro nb _
      by_cases hl : 0 < (g2.adj nb).length
      · rw [if_pos hl, if_pos hl, ih (some nb) none]
      · rw [if_neg hl, if_neg hl]
    | some v =>
      apply congrArg
      apply mapM_option_congr
      intro nb _
      by_cases hl : 0 < (g2.adj nb).length
      · rw [if_pos hl, if_pos hl, ih (some nb) none]
      · rw [if_neg hl, if_neg hl]

/-- Witness for C5 (amended): `gNA` (no node data) and `gNAd` (node data
present) build the same trees for every budget, start and root label. -/
theorem tree_ignores_node_data_witness :
    gNA.nodes = gNAd.nodes ∧ gNA.adj = gNAd.adj ∧ gNA.name = gNAd.name ∧
    (∀ (fuel : ℕ) (n : Option ℕ) (rl : Option String),
      diGraph_to_richTree gNA fuel n default_label_func rl =
        diGraph_to_richTree gNAd fuel n default_label_func rl) :=
  ⟨rfl, rfl, rfl, tree_ignores_node_data gNA gNAd rfl rfl rfl⟩

/-! ## Claim C8: the trace-configuration merge and the caller's dicts -/

/-- C8 (counterexample): the caller's nested arrows marker dict is *not*
unchanged after `g_to_traces`: starting from an empty marker dict at
heap address 11, after the call the dict at that address has gained an
`"angle"` entry — `kw.update(trace_kwargs)` copies the caller's nested
dict references into the merged configuration, and the arrows branch
then mutates the referenced marker dict in place. -/
theorem caller_marker_dict_mutated :
    (heapGet heap0 11).map dictKeys = some [] ∧
    (g_to_traces gD interpD kwD none heap0).toOption.map
      (fun r => (heapGet r.1 11).map dictKeys) = some (some ["angle"]) ∧
    some (some (["angle"] : List String)) ≠ some (some ([] : List String)) := by
  refine ⟨rfl, rfl, by simp⟩

/-- C8 (amended): the top-level merge builds a *new* merged
configuration (the caller's top-level dict is only read, never written,
and the per-call default dicts — e.g. the default marker dict allocated
at address 12 — come out of the call unchanged), but the caller's
*nested* arrows marker dict is mutated in place: when it lacks an
`"angle"` key, the call appends an `"angle"` entry to the dict at the
caller's heap address, preserving the entry it already held (here a
pre-existing `"size"` entry); the caller's arrows dict itself keeps its
contents. -/
theorem merge_mutates_nested_marker_in_place :
    (g_to_traces gD interpD kwD none
        (heapM [("size", CVal.n 5)])).toOption.map
      (fun r => (heapGet r.1 11).map dictKeys) =
      some (some ["size", "angle"]) ∧
    (g_to_traces gD interpD kwD none
        (heapM [("size", CVal.n 5)])).toOption.map
      (fun r => heapGet r.1 10) = some (some arrowsD) ∧
    (g_to_traces gD interpD kwD none
        (heapM [("size", CVal.n 5)])).toOption.map
      (fun r => (heapGet r.1 12).map dictKeys) =
      some (some ["size", "symbol", "color"]) :=
  ⟨rfl, rfl, rfl⟩

end NxUtils
